import Mathlib

/-!
# TonColoursBack — verification of the mint-service core

Shallow embedding of the mint serialization queue, wallet precondition
gate, external deploy invocation, result-protocol parsing and metadata
URI construction from `src/services/mintService.js`,
`src/services/metadataService.js`, `src/utils/color.js` and
`src/config/env.js`, together with theorems settling the specification
claims about them.

JavaScript builtins that the code calls (`JSON.parse`, `Date`,
`child_process.spawn`, the TON RPC provider) are not part of the
repository: they are abstracted as parameters/inputs of the embedded
functions (a JSON-parse oracle, the current ISO timestamp, the observed
process behaviour, the resolved wallet status).
-/

namespace TonColours

/-! ## Mint serialization queue (`mintService.js`, lines 41 and 185–189)

```js
let mintQueue = Promise.resolve();
function enqueueMint(task) {
  const next = mintQueue.then(task, task);
  mintQueue = next.then(() => undefined, () => undefined);
  return next;
}
```

The promise chain is modelled by its settle times.  A task is an
asynchronous closure: once invoked at time `t` it runs for `dur` ticks
and settles its promise with outcome `out`.  The queue tail promise
(`mintQueue`) always fulfills — both of its `then` handlers discard the
outcome — so the state is just the tick at which the current tail
settles.  `enqueueMint` registers the task on both the fulfil and the
reject path of the tail (`then(task, task)`), hence the task is invoked
exactly when the tail settles, whatever the previous outcome was; the
caller receives `next`, the task's own promise. A submission made at
tick `sub` after the tail has already settled is invoked at `sub`
(`max sub tailSettle`). -/

/-- One queued mint task: its running time and the outcome its promise
settles with ( `.error` = rejection). -/
structure MintTask (α : Type) where
  dur : Nat
  out : Except String α

/-- The observable run of one task: when it was invoked (`spawn`), when
its promise settled (`settle`), and the outcome delivered to its own
caller. -/
structure TaskRun (α : Type) where
  spawn : Nat
  settle : Nat
  out : Except String α
  deriving Repr

/-- State of the module-level `mintQueue` promise chain: the tick at
which the current tail settles (the tail always fulfills because
`next.then(() => undefined, () => undefined)` swallows both outcomes). -/
structure MintQueueState where
  tailSettle : Nat

/-- Submitting a task at tick `sub`: the task is invoked
when the current tail settles (or at submission, if the tail settled
earlier); the new tail settles together with the task's own promise. -/
def enqueueMint (st : MintQueueState) (sub : Nat) (t : MintTask α) :
    TaskRun α × MintQueueState :=
  let spawn := max sub st.tailSettle
  let settle := spawn + t.dur
  ({ spawn := spawn, settle := settle, out := t.out }, { tailSettle := settle })

/-- Run a whole submission sequence (each with its submission tick)
through the queue, in submission order. -/
def runQueue (st : MintQueueState) : List (Nat × MintTask α) → List (TaskRun α)
  | [] => []
  | (sub, t) :: rest =>
    let p := enqueueMint st sub t
    p.1 :: runQueue p.2 rest

/-! ## Collection counter model (for claim C3)

The deploy script and the on-chain collection contract live outside this
repository. -/

/-- Modelled from the spec: the on-chain collection contract (spec §3,
glossary) assigns item indices from a monotonic counter — a successful
mint observes the current counter as its `itemIndex` and the counter
advances past it; a failed attempt assigns no index.  The deploy script
`the-path-season-1-nft` that talks to the contract is not under `src/`. -/
def collectionMintStep (counter : Nat) (succeeds : Bool) : Option Nat × Nat :=
  if succeeds then (some counter, counter + 1) else (none, counter)

/-- Successive serialized mint attempts against one collection: the
queue (claims C1/C2) runs them one at a time in submission order, so the
counter is threaded sequentially; each element of the result is the
`itemIndex` observed by that attempt (`none` for a failed attempt). -/
def runMintSequence (counter : Nat) : List Bool → List (Option Nat)
  | [] => []
  | b :: bs =>
    let p := collectionMintStep counter b
    p.1 :: runMintSequence p.2 bs

/-! ## Data model: JSON values, errors, configuration -/

/-- Values a JavaScript JSON-parse oracle can deliver.  The constructor
`nan` stands for the JS number NaN — it has typeof number but fails the
numeric check of `mintColorNft` (JSON.parse itself never produces it,
but the embedding keeps the code's defensive branch meaningful). -/
inductive JsonVal where
  | nullV
  | boolV (b : Bool)
  | num (q : ℚ)
  | nan
  | str (s : String)
  | arr (elems : List JsonVal)
  | obj (fields : List (String × JsonVal))
  deriving Repr

/-- Errors with which the embedded mint pipeline can reject.  Each
constructor corresponds to one throw site of `mintService.js` /
`color.js`; payload fields record the data the thrown JS error object
carries. -/
inductive MintError where
  /-- MintPreconditionError with its code and HTTP status (message text
  elided). -/
  | precondition (code : String) (statusCode : Nat)
  /-- Thrown at line 244: the script exited abnormally; carries the
  reason text and the captured stdout and stderr. -/
  | deployFailed (reason : String) (stdout stderr : String)
  /-- Thrown at line 200: the matched line's suffix is not valid JSON
  (message: Mint script produced an invalid JSON payload). -/
  | invalidJsonPayload
  /-- Thrown at line 204: no line matched the result marker (message:
  Mint script did not produce a result payload). -/
  | missingResultPayload
  /-- Thrown at line 267: parsed payload has no numeric itemIndex;
  carries the parsed result and the captured stdout and stderr. -/
  | missingItemIndex (result : JsonVal) (stdout stderr : String)
  /-- JavaScript TypeError raised by reading a property of null. -/
  | nullPropertyAccess (prop : String)
  /-- Thrown by normalizeHexColor on a malformed colour string. -/
  | invalidColor (input : String)
  deriving Repr

/-- Configuration relevant to the mint service, as validated and
exported by `src/config/env.js` (numeric TON amounts are modelled as
exact rationals). -/
structure Config where
  tonNetwork : String
  tonEndpoint : String
  tonApiKey : Option String
  collectionAddress : String
  mnemonicWords : List String
  walletVersion : String
  collectionMintValueTon : ℚ
  itemDeployAmountTon : ℚ
  backendBaseUrl : String

/-- Resolved minter wallet status (`resolveMinterWalletStatus`,
lines 98–127): both address encodings, the BigInt nano balance and the
chain-reported state string. -/
structure WalletStatus where
  friendlyAddress : String
  nonBounceableAddress : String
  balanceNano : Int
  state : String

/-! ## Precondition gate (`toNano`, `ensureMinterWalletReady`) -/

/-- JavaScript Math.round: round half towards positive infinity. -/
def jsRound (q : ℚ) : Int := ⌊q + 1 / 2⌋

/-- Embedding of `toNano` (lines 129–138): scale a TON amount to integer
nano units with Math.round; reject negative results (the NaN branch
cannot arise for exact rationals). -/
def toNano (valueTon : ℚ) : Except MintError Int :=
  let scaled := jsRound (valueTon * 1000000000)
  if scaled < 0 then .error (.precondition "INVALID_TON_AMOUNT" 500)
  else .ok scaled

/-- Advisory warnings the precondition gate can record (the code builds
human-readable strings; their numeric formatting is presentation only,
so warnings are modelled by their kind). -/
inductive PrecheckWarning where
  /-- Balance below the required threshold (line 154). -/
  | balanceLow
  /-- Wallet state neither active nor uninitialized (line 161). -/
  | unexpectedState (state : String)
  deriving Repr, DecidableEq

/-- Result of the precondition gate: the wallet status plus the recorded
warning list. -/
structure MinterReadiness where
  friendlyAddress : String
  nonBounceableAddress : String
  balanceNano : Int
  state : String
  warnings : List PrecheckWarning

/-- Embedding of `ensureMinterWalletReady` (lines 140–183), given the
already-resolved wallet status: computes the required balance, records
advisory warnings, and never fails beyond the `toNano` validation. -/
def ensureMinterWalletReady (cfg : Config) (ws : WalletStatus) :
    Except MintError MinterReadiness := do
  let requiredTransfer ← toNano cfg.collectionMintValueTon
  let safetyBuffer ← toNano (max (cfg.collectionMintValueTon * (1 / 10)) (1 / 50))
  let requiredBalance := requiredTransfer + safetyBuffer
  let balanceWarnings := if ws.balanceNano < requiredBalance then [PrecheckWarning.balanceLow] else []
  let stateWarnings :=
    if ws.state ≠ "active" ∧ ws.state ≠ "uninitialized" then [PrecheckWarning.unexpectedState ws.state] else []
  .ok { friendlyAddress := ws.friendlyAddress
        nonBounceableAddress := ws.nonBounceableAddress
        balanceNano := ws.balanceNano
        state := ws.state
        warnings := balanceWarnings ++ stateWarnings }

/-! ## Character-level string primitives

The JS string methods the code uses (trim, startsWith, slice,
toUpperCase, join) are modelled on the underlying character lists, so
every embedded function evaluates by computation. -/

/-- Whitespace characters the JS trim removes (the ASCII ones; the
exotic Unicode space characters never occur in the protocol text). -/
def isJsSpace (c : Char) : Bool :=
  decide (c.toNat = 32) || decide (c.toNat = 9) || decide (c.toNat = 10) ||
  decide (c.toNat = 13) || decide (c.toNat = 11) || decide (c.toNat = 12)

/-- Trim leading and trailing whitespace from a character list. -/
def trimChars (l : List Char) : List Char :=
  ((l.dropWhile isJsSpace).reverse.dropWhile isJsSpace).reverse

/-- Check that the second list is an initial segment of the first. -/
def listStartsWith : List Char → List Char → Bool
  | _, [] => true
  | [], _ :: _ => false
  | c :: cs, m :: ms => (c == m) && listStartsWith cs ms

/-- JS startsWith on strings. -/
def strStartsWith (s marker : String) : Bool :=
  listStartsWith s.toList marker.toList

/-- JS slice from a character position to the end. -/
def dropChars (n : Nat) (s : String) : String :=
  String.mk (s.toList.drop n)

/-- Uppercase one character, as JS toUpperCase acts on ASCII. -/
def upperChar (c : Char) : Char :=
  if 97 ≤ c.toNat ∧ c.toNat ≤ 122 then Char.ofNat (c.toNat - 32) else c

/-- Array.prototype.join with a single space, as the mnemonic word list
is joined. -/
def joinWords : List String → String
  | [] => ""
  | [w] => w
  | w :: ws => w ++ " " ++ joinWords ws

/-! ## Result protocol parsing (`parseMintResult`, lines 191–205) -/

/-- Literal marker RESULT_PREFIX of line 8 of the source. -/
def resultMarker : String := "MINT_RESULT="

/-- Split a character list at every occurrence of a separator
character. -/
def splitOnChar (sep : Char) : List Char → List (List Char)
  | [] => [[]]
  | c :: cs =>
    match splitOnChar sep cs with
    | [] => [[]]
    | g :: gs => if c = sep then [] :: g :: gs else (c :: g) :: gs

/-- Drop one trailing carriage return, so that splitting on a newline
character and then applying this matches the JS split on /\r?\n/. -/
def stripCarriage (l : List Char) : List Char :=
  if l.getLast? == some '\r' then l.dropLast else l

/-- Line extraction of line 192: split the captured stdout into lines,
trim each, and keep the non-empty ones (filter(Boolean)). -/
def mintResultLines (stdout : String) : List String :=
  ((((splitOnChar '\n' stdout.toList).map stripCarriage).map
      (fun l => String.mk (trimChars l))).filter (fun l => l ≠ ""))

/-- Backwards scan of lines 193–203: the loop walks indices from the
last line down and returns the first line that starts with the result
marker, so a match in the recursive tail (later lines) takes precedence
over the head. -/
def findResultLine : List String → Option String
  | [] => none
  | l :: ls =>
    match findResultLine ls with
    | some r => some r
    | none => if strStartsWith l resultMarker then some l else none

/-- Embedding of `parseMintResult` (lines 191–205), parameterised by the
JSON.parse oracle (a JS builtin, not repository code): find the result
line scanning from the end, parse its suffix as JSON, and reject with
the distinguished errors otherwise. -/
def parseMintResult (jsonParse : String → Option JsonVal) (stdout : String) :
    Except MintError JsonVal :=
  match findResultLine (mintResultLines stdout) with
  | some line =>
    match jsonParse (dropChars resultMarker.length line) with
    | some v => .ok v
    | none => .error .invalidJsonPayload
  | none => .error .missingResultPayload

/-! ## Colour normalization (`src/utils/color.js`) -/

/-- Character class of the HEX_COLOR_REGEX body: 0-9, a-f, A-F. -/
def isHexDigitChar (c : Char) : Bool :=
  decide (48 ≤ c.toNat ∧ c.toNat ≤ 57) ||
  decide (97 ≤ c.toNat ∧ c.toNat ≤ 102) ||
  decide (65 ≤ c.toNat ∧ c.toNat ≤ 70)

/-- Embedding of `normalizeHexColor`: trim, require an optional leading
hash followed by exactly six hex digits, and return the hash-prefixed
uppercase form. -/
def normalizeHexColor (input : String) : Except MintError String :=
  let trimmed := trimChars input.toList
  let core := if listStartsWith trimmed ['#'] then trimmed.drop 1 else trimmed
  if core.length = 6 ∧ core.all isHexDigitChar then
    .ok (String.mk ('#' :: core.map upperChar))
  else .error (.invalidColor input)

/-! ## Metadata URI builder (`src/services/metadataService.js`, lines 71–85)

The WHATWG URL object serialises `searchParams` in the
application/x-www-form-urlencoded format: bytes in [A-Za-z0-9*-._] kept,
space written as a plus sign, every other byte of the UTF-8 encoding
percent-encoded with uppercase hex digits. -/

/-- Characters the urlencoded serialiser leaves as-is. -/
def urlencodedSafeChar (c : Char) : Bool :=
  decide (48 ≤ c.toNat ∧ c.toNat ≤ 57) ||
  decide (97 ≤ c.toNat ∧ c.toNat ≤ 122) ||
  decide (65 ≤ c.toNat ∧ c.toNat ≤ 90) ||
  decide (c.toNat = 42) || decide (c.toNat = 45) ||
  decide (c.toNat = 46) || decide (c.toNat = 95)

/-- Uppercase hex digit for a value below 16. -/
def hexDigitChar (n : Nat) : Char :=
  if n < 10 then Char.ofNat (48 + n) else Char.ofNat (55 + n)

/-- UTF-8 byte sequence of one character (bytes as naturals below 256). -/
def utf8Bytes (c : Char) : List Nat :=
  let n := c.toNat
  if n < 128 then [n]
  else if n < 2048 then [192 + n / 64, 128 + n % 64]
  else if n < 65536 then [224 + n / 4096, 128 + (n / 64) % 64, 128 + n % 64]
  else [240 + n / 262144, 128 + (n / 4096) % 64, 128 + (n / 64) % 64, 128 + n % 64]

/-- Percent-encode one byte. -/
def percentEncodeByte (b : Nat) : List Char :=
  ['%', hexDigitChar (b / 16), hexDigitChar (b % 16)]

/-- Urlencoded encoding of one character. -/
def urlencodeChar (c : Char) : List Char :=
  if c = ' ' then ['+']
  else if urlencodedSafeChar c then [c]
  else (utf8Bytes c).flatMap percentEncodeByte

/-- Urlencoded encoding of a character list. -/
def urlencodeList (l : List Char) : List Char := l.flatMap urlencodeChar

/-- Urlencoded encoding of a string. -/
def urlencode (s : String) : String := String.mk (urlencodeList s.toList)

/-- Serialisation of a search-parameter list at character level:
key=value pairs joined by ampersands, keys and values urlencoded. -/
def serializeQueryChars : List (String × String) → List Char
  | [] => []
  | [p] => urlencodeList p.1.toList ++ '=' :: urlencodeList p.2.toList
  | p :: rest =>
    urlencodeList p.1.toList ++ '=' :: urlencodeList p.2.toList
      ++ '&' :: serializeQueryChars rest

/-- Serialisation of a search-parameter list, as URL.toString renders
it. -/
def serializeQuery (params : List (String × String)) : String :=
  String.mk (serializeQueryChars params)

/-- Removal of the first occurrence of a hash character, as the
JavaScript expression normalizedColor.replace with a one-character
string pattern does. -/
def removeFirstHash : List Char → List Char
  | [] => []
  | c :: cs => if c = '#' then cs else c :: removeFirstHash cs

/-- Decimal rendering a JS template literal gives a number.  Integral
values render exactly as in JS; the rendering of non-integral rationals
is a stand-in (all item indices in the spec and tests are integers). -/
def jsNumberToString (q : ℚ) : String :=
  if q.den = 1 then toString q.num else toString q

/-- Search parameters set by `buildMetadataUri`, in insertion order:
color always (leading hash removed), wallet only for a truthy
walletAddress, tg only when telegramUserId is neither undefined nor
null, mintedAt only when truthy. -/
def metadataQueryParams (normalizedColor : String) (walletAddress : Option String)
    (telegramUserId : Option Int) (mintedAt : Option String) :
    List (String × String) :=
  [("color", String.mk (removeFirstHash normalizedColor.toList))]
  ++ (match walletAddress with
      | some w => if w = "" then [] else [("wallet", w)]
      | none => [])
  ++ (match telegramUserId with
      | some tg => [("tg", toString tg)]
      | none => [])
  ++ (match mintedAt with
      | some m => if m = "" then [] else [("mintedAt", m)]
      | none => [])

/-- Embedding of `buildMetadataUri` (metadataService.js lines 71–85):
normalise the colour, build the metadata path for the item index, and
attach the query parameters.  The URL constructor's normalisation is the
identity for the well-formed, slash-free base URLs `env.js` exports, so
the result is the plain concatenation. -/
def buildMetadataUri (baseUrl : String) (itemIndex : ℚ) (color : String)
    (walletAddress : Option String) (telegramUserId : Option Int)
    (mintedAt : Option String) : Except MintError String := do
  let normalizedColor ← normalizeHexColor color
  let params := metadataQueryParams normalizedColor walletAddress telegramUserId mintedAt
  .ok (baseUrl ++ "/metadata/" ++ jsNumberToString itemIndex ++ "?" ++ serializeQuery params)

/-! ## External deploy invocation (`mintService.js`, lines 12–39 and 207–252) -/

/-- Known Toncenter defaults of lines 12–15. -/
def DEFAULT_TONCENTER_ENDPOINTS (network : String) : Option String :=
  if network = "mainnet" then some "https://toncenter.com/api/v2/jsonRPC"
  else if network = "testnet" then some "https://testnet.toncenter.com/api/v2/jsonRPC"
  else none

/-- Custom-endpoint flags of lines 22–32: pushed only when the endpoint
does not match the known default for the configured network; a falsy —
empty — API key adds no key flag. -/
def customEndpointFlags (cfg : Config) : List String :=
  if DEFAULT_TONCENTER_ENDPOINTS cfg.tonNetwork = some cfg.tonEndpoint then []
  else
    ["--custom", cfg.tonEndpoint, "--custom-type", cfg.tonNetwork, "--custom-version", "v2"]
    ++ (match cfg.tonApiKey with
        | some key => if key = "" then [] else ["--custom-key", key]
        | none => [])

/-- Embedding of `buildScriptArgs` (lines 17–39): blueprint runner
words, the network selector flag, the conditional custom-endpoint
flags, then the tonconnect flag and the subcommand. -/
def buildScriptArgs (cfg : Config) : List String :=
  let networkFlag := if cfg.tonNetwork = "testnet" then "--testnet" else "--mainnet"
  ["blueprint", "run", networkFlag] ++ customEndpointFlags cfg ++ ["--tonconnect", "deployNftItem"]

/-- Environment entries `runDeployScript` (lines 208–219) lays over the
inherited process.env before spawning. -/
def deployEnvOverrides (cfg : Config) (walletAddress : String) (color : String)
    (telegramUserId : Int) : List (String × String) :=
  [("TON_COLOURS_AUTOMATION", "true"),
   ("TON_COLOURS_COLLECTION_ADDRESS", cfg.collectionAddress),
   ("TON_COLOURS_ITEM_OWNER", walletAddress),
   ("TON_COLOURS_ITEM_COLOR", color),
   ("TON_COLOURS_ITEM_TELEGRAM_ID", toString telegramUserId),
   ("TON_WALLET_MNEMONIC", joinWords cfg.mnemonicWords),
   ("TON_WALLET_VERSION", cfg.walletVersion),
   ("TON_NETWORK", cfg.tonNetwork),
   ("TON_ENDPOINT", cfg.tonEndpoint)]

/-- One spawn of the external deployer: command word, argument vector
and the environment overrides. -/
structure SpawnCall where
  command : String
  args : List String
  env : List (String × String)

/-- Invocation line 221 of the source: the script command with the built
args plus the collection address as final positional argument, and the
override environment. -/
def deploySpawnCall (scriptCommand : String) (cfg : Config) (walletAddress : String)
    (color : String) (telegramUserId : Int) : SpawnCall :=
  { command := scriptCommand
    args := buildScriptArgs cfg ++ [cfg.collectionAddress]
    env := deployEnvOverrides cfg walletAddress color telegramUserId }

/-- Observed behaviour of one spawned deploy process: its exit
code (null when terminated by a signal), the delivering signal if any,
and the accumulated stdout and stderr captures. -/
structure ProcRun where
  exitCode : Option Int
  signal : Option String
  stdout : String
  stderr : String

/-- Reason text of line 243: signal name when the exit code is null,
otherwise the numeric code. -/
def exitReason (p : ProcRun) : String :=
  match p.exitCode with
  | none => "signal " ++ (match p.signal with | some s => s | none => "null")
  | some c => "code " ++ toString c

/-- Embedding of the tail of `runDeployScript` (lines 238–252) given the
observed process behaviour: any exit state other than code 0 fails with
the abnormal-exit error carrying both captures; only a clean exit
reaches the result protocol parsing. -/
def runDeployScript (jsonParse : String → Option JsonVal) (p : ProcRun) :
    Except MintError (JsonVal × String × String) :=
  if p.exitCode ≠ some 0 then
    .error (.deployFailed ("Mint script exited abnormally (" ++ exitReason p ++ ")")
      p.stdout p.stderr)
  else
    match parseMintResult jsonParse p.stdout with
    | .ok parsed => .ok (parsed, p.stdout, p.stderr)
    | .error e => .error e

/-! ## The mint pipeline (`mintColorNft`, lines 254–297) -/

/-- JavaScript property read on a parsed JSON value: a TypeError on
null, the last binding of the key on an object (JSON.parse keeps the
last duplicate key), undefined otherwise. -/
def jsGetField : JsonVal → String → Except MintError (Option JsonVal)
  | .nullV, prop => .error (.nullPropertyAccess prop)
  | .obj fields, prop => .ok (List.lookup prop fields.reverse)
  | _, _ => .ok none

/-- Resolved value a successful mint returns to its caller
(lines 285–295; the transaction field is the constant null). -/
structure MintOutcome where
  itemIndex : ℚ
  metadataUri : String
  transaction : Option JsonVal
  nftAddress : Option String
  color : String
  ownerAddress : String
  mintedAt : String
  scriptMetadataUri : Option JsonVal
  itemContent : Option JsonVal

/-- Embedding of the queued task body of `mintColorNft`
(lines 255–296).  External effects appear as inputs: the resolved wallet
status (chain RPC), the spawned process behaviour, the JSON.parse oracle
and the current ISO timestamp. -/
def mintAttempt (cfg : Config) (jsonParse : String → Option JsonVal)
    (walletStatus : Except MintError WalletStatus) (proc : ProcRun)
    (nowIso : String) (walletAddress : String) (telegramUserId : Int)
    (color : String) : Except MintError MintOutcome := do
  let ws ← walletStatus
  let _ready ← ensureMinterWalletReady cfg ws
  let normalizedColor ← normalizeHexColor color
  let normalizedWallet := walletAddress
  let (result, stdout, stderr) ← runDeployScript jsonParse proc
  let itemIndexField ← jsGetField result "itemIndex"
  match itemIndexField with
  | some (JsonVal.num itemIndex) =>
    let mintedAtField ← jsGetField result "mintedAt"
    let mintedAt := match mintedAtField with
      | some (JsonVal.str s) => s
      | _ => nowIso
    let metadataUri ← buildMetadataUri cfg.backendBaseUrl itemIndex normalizedColor
      (some normalizedWallet) (some telegramUserId) (some mintedAt)
    let nftAddressField ← jsGetField result "nftAddress"
    let metadataUriField ← jsGetField result "metadataUri"
    let itemContentField ← jsGetField result "itemContent"
    .ok { itemIndex := itemIndex
          metadataUri := metadataUri
          transaction := none
          nftAddress := match nftAddressField with
            | some (JsonVal.str s) => some s
            | _ => none
          color := normalizedColor
          ownerAddress := normalizedWallet
          mintedAt := mintedAt
          scriptMetadataUri := match metadataUriField with
            | some JsonVal.nullV => none
            | some v => some v
            | none => none
          itemContent := match itemContentField with
            | some JsonVal.nullV => none
            | some v => some v
            | none => none }
  | _ => .error (.missingItemIndex result stdout stderr)

/-! ## Query-string parsing (the metadata GET endpoint's view)

The metadata-serving endpoint parses the query parameters of the built
URI back out (server.js, lines 169–211, via the urlencoded parser of the
HTTP stack).  The decoder below is the standard urlencoded reader at
byte level: plus becomes space, a percent followed by two hex digits
becomes the byte, everything else stays (multi-byte UTF-8 sequences stay
byte-decoded; the round-trip claims concern ASCII values). -/

/-- Value of one hex digit character. -/
def hexDigitVal (c : Char) : Option Nat :=
  if 48 ≤ c.toNat ∧ c.toNat ≤ 57 then some (c.toNat - 48)
  else if 65 ≤ c.toNat ∧ c.toNat ≤ 70 then some (c.toNat - 55)
  else if 97 ≤ c.toNat ∧ c.toNat ≤ 102 then some (c.toNat - 87)
  else none

/-- Urlencoded percent-decoding of a character list. -/
def percentDecodeList : List Char → List Char
  | [] => []
  | '+' :: cs => ' ' :: percentDecodeList cs
  | '%' :: h₁ :: h₂ :: rest =>
    (match hexDigitVal h₁, hexDigitVal h₂ with
     | some a, some b => Char.ofNat (16 * a + b) :: percentDecodeList rest
     | _, _ => '%' :: percentDecodeList (h₁ :: h₂ :: rest))
  | c :: cs => c :: percentDecodeList cs

/-- Split a query piece at its first equals sign into key and value
characters. -/
def splitFirstEq : List Char → List Char × List Char
  | [] => ([], [])
  | c :: cs =>
    if c = '=' then ([], cs)
    else
      let p := splitFirstEq cs
      (c :: p.1, p.2)

/-- Parse a query string back into its decoded key/value pairs:
split on ampersands, drop empty pieces, split each piece at its first
equals sign and percent-decode both halves. -/
def parseQueryString (qs : String) : List (String × String) :=
  ((splitOnChar '&' qs.toList).filter (fun piece => piece ≠ [])).map (fun piece =>
    let p := splitFirstEq piece
    (String.mk (percentDecodeList p.1), String.mk (percentDecodeList p.2)))

/-- ASCII check used to scope the round-trip statements to the byte
range where the byte-level decoder agrees with full UTF-8 decoding. -/
def isAsciiString (s : String) : Bool :=
  s.toList.all (fun c => decide (c.toNat < 128))

/-! ## Classifiers and concrete sample inputs used by the witnesses -/

/-- Check for the missing-numeric-itemIndex rejection of line 267. -/
def isMissingItemIndexError : Except MintError MintOutcome → Bool
  | .error (.missingItemIndex _ _ _) => true
  | _ => false

/-- Sample configuration: the env.js defaults of the test environment
(testnet default Toncenter endpoint, default mint amounts 0.009 and
0.002 TON). -/
def sampleConfig : Config :=
  { tonNetwork := "testnet"
    tonEndpoint := "https://testnet.toncenter.com/api/v2/jsonRPC"
    tonApiKey := none
    collectionAddress := "EQCOLLECTION"
    mnemonicWords := List.replicate 24 "abandon"
    walletVersion := "v4"
    collectionMintValueTon := 9 / 1000
    itemDeployAmountTon := 2 / 1000
    backendBaseUrl := "http://localhost:3000" }

/-- Sample wallet status: well funded and active. -/
def sampleWallet : WalletStatus :=
  { friendlyAddress := "EQFRIENDLY"
    nonBounceableAddress := "UQFRIENDLY"
    balanceNano := 1000000000
    state := "active" }

/-- Sample wallet status: almost empty balance and a state outside the
expected set. -/
def poorWallet : WalletStatus :=
  { friendlyAddress := "EQFRIENDLY"
    nonBounceableAddress := "UQFRIENDLY"
    balanceNano := 5
    state := "frozen" }

/-- JSON.parse oracle that recognises only the null literal, as
JSON.parse does on the payload text null. -/
def jsonParseNullOnly : String → Option JsonVal :=
  fun s => if s = "null" then some JsonVal.nullV else none

/-- JSON.parse oracle for the one-field payload \x7b"itemIndex":7\x7d. -/
def jsonParseItem7 : String → Option JsonVal :=
  fun s =>
    if s = "\x7b\"itemIndex\":7\x7d" then some (JsonVal.obj [("itemIndex", JsonVal.num 7)])
    else none

/-- JSON.parse oracle for the payload \x7b"itemIndex":"seven"\x7d whose
itemIndex field is a string, not a number. -/
def jsonParseItemStr : String → Option JsonVal :=
  fun s =>
    if s = "\x7b\"itemIndex\":\"seven\"\x7d" then
      some (JsonVal.obj [("itemIndex", JsonVal.str "seven")])
    else none

/-! ## Queue lemmas and the serialization claims -/

/-- Every run produced by the queue starts no earlier than the tail
settle time it was enqueued behind, and settles no earlier than it
starts. -/
theorem runQueue_mem_bounds (st : MintQueueState) (subs : List (Nat × MintTask α)) :
    ∀ r ∈ runQueue st subs, st.tailSettle ≤ r.spawn ∧ r.spawn ≤ r.settle := by
  induction subs generalizing st with
  | nil => intro r hr; simp [runQueue] at hr
  | cons p rest ih =>
    intro r hr
    rcases List.mem_cons.mp hr with hr | hr
    · subst hr
      exact ⟨le_max_right _ _, Nat.le_add_right _ _⟩
    · have h := ih _ r hr
      refine ⟨le_trans ?_ h.1, h.2⟩
      exact le_trans (le_max_right _ _) (Nat.le_add_right _ _)

/-- The queue produces exactly one run per submission. -/
theorem runQueue_length (st : MintQueueState) (subs : List (Nat × MintTask α)) :
    (runQueue st subs).length = subs.length := by
  induction subs generalizing st with
  | nil => rfl
  | cons p rest ih => simp [runQueue, ih]

/-- A run's caller receives exactly the outcome of its own task. -/
theorem runQueue_get_out (st : MintQueueState) (subs : List (Nat × MintTask α)) :
    ∀ i (h₁ : i < (runQueue st subs).length) (h₂ : i < subs.length),
      ((runQueue st subs).get ⟨i, h₁⟩).out = (subs.get ⟨i, h₂⟩).2.out := by
  induction subs generalizing st with
  | nil => intro i h₁ h₂; simp at h₂
  | cons p rest ih =>
    intro i h₁ h₂
    match i with
    | 0 => rfl
    | n + 1 => exact ih _ n (by simpa [runQueue] using h₁) (by simpa using h₂)

/-- Scheduling depends only on submission ticks and durations, never on
outcomes: two submission sequences agreeing on ticks and durations
produce the same spawn/settle schedule. -/
theorem runQueue_schedule_eq (st : MintQueueState)
    (subs₁ subs₂ : List (Nat × MintTask α))
    (hdur : subs₁.map (fun s => (s.1, s.2.dur)) = subs₂.map (fun s => (s.1, s.2.dur))) :
    (runQueue st subs₁).map (fun r => (r.spawn, r.settle)) =
      (runQueue st subs₂).map (fun r => (r.spawn, r.settle)) := by
  induction subs₁ generalizing st subs₂ with
  | nil =>
    cases subs₂ with
    | nil => rfl
    | cons q rest₂ => simp at hdur
  | cons p rest ih =>
    cases subs₂ with
    | nil => simp at hdur
    | cons q rest₂ =>
      simp only [List.map_cons, List.cons.injEq, Prod.mk.injEq] at hdur
      obtain ⟨⟨hsub, hd⟩, hrest⟩ := hdur
      simp only [runQueue, List.map_cons, enqueueMint, hsub, hd]
      exact congrArg (List.cons _) (ih _ rest₂ hrest)

/-- C1: mint tasks submitted to the queue execute in strict submission
order, one at a time with no overlap — every submission gets exactly one
run, each run's deploy work lies inside its [spawn, settle] window, and
for any earlier submission the whole window (hence its settle) precedes
the spawn of every later one, so spawn order equals submission order and
the (n+1)-th task is never spawned before the n-th promise settles. -/
theorem mintQueue_serializes_submissions (st : MintQueueState)
    (subs : List (Nat × MintTask α)) :
    (runQueue st subs).length = subs.length ∧
    (∀ r ∈ runQueue st subs, r.spawn ≤ r.settle) ∧
    List.Pairwise (fun r₁ r₂ => r₁.settle ≤ r₂.spawn) (runQueue st subs) := by
  refine ⟨runQueue_length st subs, fun r hr => (runQueue_mem_bounds st subs r hr).2, ?_⟩
  induction subs generalizing st with
  | nil => simp [runQueue]
  | cons p rest ih =>
    rw [runQueue]
    refine List.pairwise_cons.mpr ⟨?_, ih _⟩
    intro r hr
    exact (runQueue_mem_bounds _ rest r hr).1

/-- C2: a rejecting task never stalls the queue — scheduling (the spawn
and settle ticks) depends only on the submission ticks and durations,
not on any task's outcome, every submission still gets a run, and each
run delivers to its own caller exactly the outcome of its own task. -/
theorem mintQueue_isolates_failures (st : MintQueueState)
    (subs₁ subs₂ : List (Nat × MintTask α))
    (hdur : subs₁.map (fun s => (s.1, s.2.dur)) = subs₂.map (fun s => (s.1, s.2.dur))) :
    (runQueue st subs₁).length = subs₁.length ∧
    (∀ i (h₁ : i < (runQueue st subs₁).length) (h₂ : i < subs₁.length),
      ((runQueue st subs₁).get ⟨i, h₁⟩).out = (subs₁.get ⟨i, h₂⟩).2.out) ∧
    (runQueue st subs₁).map (fun r => (r.spawn, r.settle)) =
      (runQueue st subs₂).map (fun r => (r.spawn, r.settle)) :=
  ⟨runQueue_length st subs₁, runQueue_get_out st subs₁,
    runQueue_schedule_eq st subs₁ subs₂ hdur⟩

/-- Every item index a mint sequence starting at a given counter can
observe is at least that counter. -/
theorem runMintSequence_mem_ge (c : Nat) (bs : List Bool) :
    ∀ x ∈ (runMintSequence c bs).filterMap id, c ≤ x := by
  induction bs generalizing c with
  | nil => intro x hx; simp [runMintSequence] at hx
  | cons b bs ih =>
    intro x hx
    cases b with
    | true =>
      have hsplit : (runMintSequence c (true :: bs)).filterMap id =
          c :: (runMintSequence (c + 1) bs).filterMap id := by
        simp [runMintSequence, collectionMintStep]
      rw [hsplit] at hx
      rcases List.mem_cons.mp hx with h | h
      · exact le_of_eq h.symm
      · exact le_trans (Nat.le_succ c) (ih (c + 1) x h)
    | false =>
      have hsplit : (runMintSequence c (false :: bs)).filterMap id =
          (runMintSequence c bs).filterMap id := by
        simp [runMintSequence, collectionMintStep]
      rw [hsplit] at hx
      exact ih c x hx

/-- C3: item indices observed by the successive successful mints of a
serialized sequence against one collection are strictly increasing —
no index is ever reused or decreased. -/
theorem mint_item_indices_strictly_increase (c : Nat) (bs : List Bool) :
    List.Pairwise (· < ·) ((runMintSequence c bs).filterMap id) := by
  induction bs generalizing c with
  | nil => simp [runMintSequence]
  | cons b bs ih =>
    cases b with
    | true =>
      have hsplit : (runMintSequence c (true :: bs)).filterMap id =
          c :: (runMintSequence (c + 1) bs).filterMap id := by
        simp [runMintSequence, collectionMintStep]
      rw [hsplit]
      refine List.pairwise_cons.mpr ⟨?_, ih (c + 1)⟩
      intro x hx
      exact lt_of_lt_of_le (Nat.lt_succ_self c) (runMintSequence_mem_ge (c + 1) bs x hx)
    | false =>
      have hsplit : (runMintSequence c (false :: bs)).filterMap id =
          (runMintSequence c bs).filterMap id := by
        simp [runMintSequence, collectionMintStep]
      rw [hsplit]
      exact ih c


/-! ## Generic evaluation lemmas for the Except pipeline -/

theorem exceptBind_ok {ε α β : Type} (x : α) (f : α → Except ε β) :
    (Except.ok x >>= f) = f x := rfl

theorem exceptBind_error {ε α β : Type} (e : ε) (f : α → Except ε β) :
    ((Except.error e : Except ε α) >>= f) = Except.error e := rfl

/-! ## Precondition-gate lemmas -/

theorem toNano_ok_iff (v : ℚ) (n : Int) :
    toNano v = .ok n ↔ jsRound (v * 1000000000) = n ∧ 0 ≤ n := by
  simp only [toNano]
  constructor
  · intro hx
    split_ifs at hx with h
    all_goals injection hx with h2
    exact ⟨h2, h2 ▸ le_of_not_lt h⟩
  · rintro ⟨h2, hn⟩
    split_ifs with h
    · omega
    · rw [h2]

theorem jsRound_mono : Monotone jsRound := by
  intro a b hab
  exact Int.floor_le_floor (by linarith)

theorem toNano_max (x y : ℚ) (b f : Int)
    (hx : toNano x = .ok b) (hy : toNano y = .ok f) :
    toNano (max x y) = .ok (max b f) := by
  rw [toNano_ok_iff] at hx hy ⊢
  obtain ⟨hbx, hb0⟩ := hx
  obtain ⟨hfy, hf0⟩ := hy
  refine ⟨?_, le_max_of_le_left hb0⟩
  rw [max_mul_of_nonneg _ _ (by norm_num : (0:ℚ) ≤ 1000000000)]
  rw [jsRound_mono.map_max, hbx, hfy]

theorem ensureMinterWalletReady_eq (cfg : Config) (ws : WalletStatus) (rt sb : Int)
    (h1 : toNano cfg.collectionMintValueTon = .ok rt)
    (h2 : toNano (max (cfg.collectionMintValueTon * (1 / 10)) (1 / 50)) = .ok sb) :
    ensureMinterWalletReady cfg ws =
      .ok { friendlyAddress := ws.friendlyAddress
            nonBounceableAddress := ws.nonBounceableAddress
            balanceNano := ws.balanceNano
            state := ws.state
            warnings :=
              (if ws.balanceNano < rt + sb then [PrecheckWarning.balanceLow] else [])
              ++ (if ws.state ≠ "active" ∧ ws.state ≠ "uninitialized" then
                    [PrecheckWarning.unexpectedState ws.state] else []) } := by
  rw [ensureMinterWalletReady, h1, h2]
  rfl

theorem toNano_sample_value :
    toNano sampleConfig.collectionMintValueTon = .ok 9000000 := by
  norm_num [sampleConfig, toNano, jsRound]

theorem toNano_sample_buffer :
    toNano (max (sampleConfig.collectionMintValueTon * (1 / 10)) (1 / 50)) = .ok 20000000 := by
  norm_num [sampleConfig, toNano, jsRound]

theorem toNano_sample_tenth :
    toNano (sampleConfig.collectionMintValueTon * (1 / 10)) = .ok 900000 := by
  norm_num [sampleConfig, toNano, jsRound]

theorem toNano_sample_floor : toNano (1 / 50 : ℚ) = .ok 20000000 := by
  norm_num [toNano, jsRound]

theorem ensure_sampleWallet :
    ensureMinterWalletReady sampleConfig sampleWallet =
      .ok { friendlyAddress := "EQFRIENDLY", nonBounceableAddress := "UQFRIENDLY",
            balanceNano := 1000000000, state := "active", warnings := [] } := by
  rw [ensureMinterWalletReady_eq sampleConfig sampleWallet 9000000 20000000
    toNano_sample_value toNano_sample_buffer]
  norm_num [sampleWallet]

theorem ensure_poorWallet :
    ensureMinterWalletReady sampleConfig poorWallet =
      .ok { friendlyAddress := "EQFRIENDLY", nonBounceableAddress := "UQFRIENDLY",
            balanceNano := 5, state := "frozen",
            warnings := [PrecheckWarning.balanceLow,
              PrecheckWarning.unexpectedState "frozen"] } := by
  rw [ensureMinterWalletReady_eq sampleConfig poorWallet 9000000 20000000
    toNano_sample_value toNano_sample_buffer]
  norm_num [poorWallet]
  exact ⟨by decide, by decide⟩

/-! ## Result-parser lemmas -/

theorem findResultLine_eq_reverse_find (ls : List String) :
    findResultLine ls = ls.reverse.find? (fun l => strStartsWith l resultMarker) := by
  induction ls with
  | nil => rfl
  | cons l ls ih =>
    rw [findResultLine, ih, List.reverse_cons, List.find?_append]
    cases h : ls.reverse.find? (fun l => strStartsWith l resultMarker) with
    | some r => simp [h]
    | none =>
      simp only [h, List.find?]
      cases hb : strStartsWith l resultMarker <;> simp [hb]

theorem findResultLine_eq_none (ls : List String)
    (h : ∀ l ∈ ls, strStartsWith l resultMarker = false) :
    findResultLine ls = none := by
  induction ls with
  | nil => rfl
  | cons l ls ih =>
    rw [findResultLine, ih (fun x hx => h x (List.mem_cons_of_mem l hx)),
      h l (List.mem_cons_self l ls)]
    simp

/-! ## Claim C4 -/

/-- C4: the result parser scans the trimmed non-empty stdout lines in
reverse order — it JSON-parses the suffix after the MINT_RESULT= marker
of the first matching line from the end, fails with the
missing-result-payload error when no line matches (and then the mint
attempt rejects with exactly that error even though the exit code is 0),
and fails with the malformed-payload error when the matched suffix is
not valid JSON. -/
theorem parseMintResult_reverse_scan (jsonParse : String → Option JsonVal)
    (stdout : String) :
    (parseMintResult jsonParse stdout =
      match (mintResultLines stdout).reverse.find?
          (fun l => strStartsWith l resultMarker) with
      | some line =>
        (match jsonParse (dropChars resultMarker.length line) with
         | some v => .ok v
         | none => .error .invalidJsonPayload)
      | none => .error .missingResultPayload) ∧
    (∀ (cfg : Config) (ws : WalletStatus) (proc : ProcRun)
        (now wa col nc : String) (tg : Int) (ready : MinterReadiness),
      ensureMinterWalletReady cfg ws = .ok ready →
      normalizeHexColor col = .ok nc →
      proc.exitCode = some 0 →
      (∀ l ∈ mintResultLines proc.stdout, strStartsWith l resultMarker = false) →
      mintAttempt cfg jsonParse (.ok ws) proc now wa tg col =
        .error .missingResultPayload) := by
  constructor
  · rw [parseMintResult, findResultLine_eq_reverse_find]
  · intro cfg ws proc now wa col nc tg ready h1 h2 h3 h4
    have hp : parseMintResult jsonParse proc.stdout = .error .missingResultPayload := by
      rw [parseMintResult, findResultLine_eq_none _ h4]
    simp [mintAttempt, h1, h2, runDeployScript, h3, hp, exceptBind_ok, exceptBind_error]

/-- Concrete run of the C4 theorem: stdout is a single log line with no
result marker, the process exits 0, and the attempt rejects with the
missing-result-payload error. -/
theorem parseMintResult_reverse_scan_witness :
    mintAttempt sampleConfig (fun _ => none) (Except.ok sampleWallet)
      ⟨some 0, none, "some log\n", ""⟩ "2025-01-01T00:00:00.000Z" "EQWALLET" 7 "#123456"
      = Except.error MintError.missingResultPayload :=
  (parseMintResult_reverse_scan (fun _ => none) "").2 sampleConfig sampleWallet
    ⟨some 0, none, "some log\n", ""⟩ "2025-01-01T00:00:00.000Z" "EQWALLET" "#123456"
    "#123456" 7 _ ensure_sampleWallet rfl rfl (by decide)


/-! ## Claim C5 -/

/-- C5: a deploy process that exits with a non-zero code or dies by a
signal makes the attempt fail with the exited-abnormally error carrying
the full captured stdout and stderr; no result parsing happens — the
outcome is identical under every JSON-parse oracle — and the mint
attempt rejects with exactly that error. -/
theorem deployFailure_carries_output (jsonParse jsonParse2 : String → Option JsonVal)
    (p : ProcRun) (hexit : p.exitCode ≠ some 0) :
    runDeployScript jsonParse p =
      .error (.deployFailed ("Mint script exited abnormally (" ++ exitReason p ++ ")")
        p.stdout p.stderr) ∧
    runDeployScript jsonParse p = runDeployScript jsonParse2 p ∧
    (∀ (cfg : Config) (ws : WalletStatus) (now wa col nc : String) (tg : Int)
        (ready : MinterReadiness),
      ensureMinterWalletReady cfg ws = .ok ready →
      normalizeHexColor col = .ok nc →
      mintAttempt cfg jsonParse (.ok ws) p now wa tg col =
        .error (.deployFailed ("Mint script exited abnormally (" ++ exitReason p ++ ")")
          p.stdout p.stderr)) := by
  have h : runDeployScript jsonParse p =
      .error (.deployFailed ("Mint script exited abnormally (" ++ exitReason p ++ ")")
        p.stdout p.stderr) := by
    rw [runDeployScript, if_pos hexit]
  refine ⟨h, ?_, ?_⟩
  · rw [h, runDeployScript, if_pos hexit]
  · intro cfg ws now wa col nc tg ready h1 h2
    simp [mintAttempt, h1, h2, h, exceptBind_ok, exceptBind_error]

/-- Concrete run of the C5 theorem: exit code 1 rejects with the
abnormal-exit error carrying the captured stderr content. -/
theorem deployFailure_carries_output_witness :
    mintAttempt sampleConfig (fun _ => none) (Except.ok sampleWallet)
      ⟨some 1, none, "log line", "boom"⟩ "2025-01-01T00:00:00.000Z" "EQWALLET" 7 "#123456"
      = Except.error (MintError.deployFailed "Mint script exited abnormally (code 1)"
          "log line" "boom") := by
  exact (deployFailure_carries_output (fun _ => none) (fun _ => none)
    ⟨some 1, none, "log line", "boom"⟩ (by decide)).2.2 sampleConfig sampleWallet
    "2025-01-01T00:00:00.000Z" "EQWALLET" "#123456" "#123456" 7 _
    ensure_sampleWallet rfl

/-! ## Colour-normalization lemmas -/

theorem dropWhile_eq_self_of_all_false (p : Char → Bool) (l : List Char)
    (h : ∀ c ∈ l, p c = false) : l.dropWhile p = l := by
  cases l with
  | nil => rfl
  | cons a t => simp [List.dropWhile_cons, h a (List.mem_cons_self a t)]

theorem trimChars_no_space (l : List Char) (h : ∀ c ∈ l, isJsSpace c = false) :
    trimChars l = l := by
  unfold trimChars
  rw [dropWhile_eq_self_of_all_false _ _ h,
    dropWhile_eq_self_of_all_false _ _ (fun c hc => h c (List.mem_reverse.mp hc)),
    List.reverse_reverse]

theorem toNat_ofNat_lt (n : Nat) (h : n < 55296) : (Char.ofNat n).toNat = n := by
  rw [Char.ofNat, dif_pos (by unfold Nat.isValidChar; omega)]
  rfl

theorem upperChar_of_hex (c : Char) (h : isHexDigitChar c = true) :
    isHexDigitChar (upperChar c) = true ∧ isJsSpace (upperChar c) = false ∧
      upperChar (upperChar c) = upperChar c := by
  simp only [isHexDigitChar, Bool.or_eq_true, decide_eq_true_eq] at h
  by_cases h1 : 97 ≤ c.toNat ∧ c.toNat ≤ 122
  · have hup : upperChar c = Char.ofNat (c.toNat - 32) := by rw [upperChar, if_pos h1]
    have hv : (Char.ofNat (c.toNat - 32)).toNat = c.toNat - 32 :=
      toNat_ofNat_lt _ (by omega)
    refine ⟨?_, ?_, ?_⟩
    · rw [hup]
      simp only [isHexDigitChar, Bool.or_eq_true, decide_eq_true_eq, hv]
      omega
    · rw [hup]
      simp only [isJsSpace, Bool.or_eq_false_iff, decide_eq_false_iff_not, hv]
      omega
    · rw [hup, upperChar, if_neg (by rw [hv]; omega)]
  · have hup : upperChar c = c := by rw [upperChar, if_neg h1]
    refine ⟨?_, ?_, ?_⟩
    · rw [hup]
      simp only [isHexDigitChar, Bool.or_eq_true, decide_eq_true_eq]
      omega
    · rw [hup]
      simp only [isJsSpace, Bool.or_eq_false_iff, decide_eq_false_iff_not]
      omega
    · rw [hup]
      exact hup

theorem normalizeHexColor_ok (col nc : String) (h : normalizeHexColor col = .ok nc) :
    ∃ core : List Char, core.length = 6 ∧ core.all isHexDigitChar = true ∧
      nc = String.mk ('#' :: core.map upperChar) := by
  simp only [normalizeHexColor] at h
  split_ifs at h with h1 h2 h3 <;> try (injection h with hx)
  all_goals first
    | exact ⟨_, h2.1, h2.2, hx.symm⟩
    | exact ⟨_, h3.1, h3.2, hx.symm⟩

theorem normalizeHexColor_normalized (col nc : String)
    (h : normalizeHexColor col = .ok nc) : normalizeHexColor nc = .ok nc := by
  obtain ⟨core, hlen, hall, rfl⟩ := normalizeHexColor_ok col nc h
  have hmem : ∀ c ∈ core.map upperChar,
      isHexDigitChar c = true ∧ isJsSpace c = false ∧ upperChar c = c := by
    intro c hc
    obtain ⟨a, ha, rfl⟩ := List.mem_map.mp hc
    exact upperChar_of_hex a (List.all_eq_true.mp hall a ha)
  have hspace : ∀ c ∈ '#' :: core.map upperChar, isJsSpace c = false := by
    intro c hc
    rcases List.mem_cons.mp hc with rfl | hc
    · rfl
    · exact (hmem c hc).2.1
  simp only [normalizeHexColor]
  have htl : (String.mk ('#' :: core.map upperChar)).toList = '#' :: core.map upperChar := rfl
  rw [htl, trimChars_no_space _ hspace]
  have hsw : listStartsWith ('#' :: core.map upperChar) ['#'] = true := by
    simp [listStartsWith]
  rw [hsw]
  simp only [if_true]
  have hdrop : ('#' :: core.map upperChar).drop 1 = core.map upperChar := rfl
  rw [hdrop]
  rw [if_pos ?hcnd]
  case hcnd =>
    constructor
    · simp [hlen]
    · exact List.all_eq_true.mpr (fun c hc => (hmem c hc).1)
  have hfix : (core.map upperChar).map upperChar = core.map upperChar :=
    List.map_congr_left (fun c hc => (hmem c hc).2.2) |>.trans (List.map_id _)
  rw [hfix]

/-! ## Field-access lemmas -/

theorem jsGetField_ok_all (result : JsonVal) (fv : Option JsonVal) (prop : String)
    (h : jsGetField result prop = .ok fv) :
    ∀ prop2 : String, ∃ fv2, jsGetField result prop2 = .ok fv2 := by
  intro prop2
  cases result with
  | nullV => exact absurd h (by simp [jsGetField])
  | boolV b => exact ⟨_, rfl⟩
  | num q => exact ⟨_, rfl⟩
  | nan => exact ⟨_, rfl⟩
  | str s => exact ⟨_, rfl⟩
  | arr es => exact ⟨_, rfl⟩
  | obj fields => exact ⟨_, rfl⟩

/-! ## Claim C6 -/

/-- C6: the precondition gate is advisory — whatever balance and state
the resolved wallet status reports, the gate returns successfully and
only records warnings, the pipeline still proceeds to the spawned deploy
process, and the mint resolves successfully whenever the process exits 0
with a payload carrying a numeric itemIndex. -/
theorem preconditionGate_never_blocks (cfg : Config) (ws : WalletStatus) (rt sb : Int)
    (h1 : toNano cfg.collectionMintValueTon = .ok rt)
    (h2 : toNano (max (cfg.collectionMintValueTon * (1 / 10)) (1 / 50)) = .ok sb) :
    (ensureMinterWalletReady cfg ws).isOk = true ∧
    (∀ (jsonParse : String → Option JsonVal) (p : ProcRun) (now wa col nc : String)
        (tg : Int) (result : JsonVal) (q : ℚ),
      normalizeHexColor col = .ok nc →
      p.exitCode = some 0 →
      parseMintResult jsonParse p.stdout = .ok result →
      jsGetField result "itemIndex" = .ok (some (JsonVal.num q)) →
      (mintAttempt cfg jsonParse (.ok ws) p now wa tg col).isOk = true) := by
  have hens := ensureMinterWalletReady_eq cfg ws rt sb h1 h2
  refine ⟨by rw [hens]; rfl, ?_⟩
  intro jsonParse p now wa col nc tg result q hcol hexit hparse hfield
  have hrun : runDeployScript jsonParse p = .ok (result, p.stdout, p.stderr) := by
    rw [runDeployScript, if_neg (by simp [hexit]), hparse]
  have hnc : normalizeHexColor nc = .ok nc := normalizeHexColor_normalized col nc hcol
  cases result with
  | nullV => simp [jsGetField] at hfield
  | boolV b => simp [jsGetField] at hfield
  | num qq => simp [jsGetField] at hfield
  | nan => simp [jsGetField] at hfield
  | str s => simp [jsGetField] at hfield
  | arr es => simp [jsGetField] at hfield
  | obj fields =>
    simp only [jsGetField, Except.ok.injEq] at hfield
    simp [mintAttempt, hens, hcol, hrun, hfield, hnc, buildMetadataUri, jsGetField,
      exceptBind_ok, Except.isOk, Except.toBool]

/-- Concrete run of the C6 theorem: balance far below the threshold and
an unexpected wallet state, yet the gate passes and the mint resolves
when the process succeeds with itemIndex 7. -/
theorem preconditionGate_never_blocks_witness :
    (ensureMinterWalletReady sampleConfig poorWallet).isOk = true ∧
    (mintAttempt sampleConfig jsonParseItem7 (Except.ok poorWallet)
      ⟨some 0, none, "MINT_RESULT=\x7b\"itemIndex\":7\x7d", ""⟩
      "2025-01-01T00:00:00.000Z" "EQWALLET" 7 "#123456").isOk = true := by
  have h := preconditionGate_never_blocks sampleConfig poorWallet 9000000 20000000
    toNano_sample_value toNano_sample_buffer
  exact ⟨h.1, h.2 jsonParseItem7 ⟨some 0, none, "MINT_RESULT=\x7b\"itemIndex\":7\x7d", ""⟩
    "2025-01-01T00:00:00.000Z" "EQWALLET" "#123456" "#123456" 7
    (JsonVal.obj [("itemIndex", JsonVal.num 7)]) 7 rfl rfl rfl rfl⟩

/-! ## Claim C7 -/

/-- C7: the precondition gate computes requiredTransfer as the
configured mint value in nano units and the required balance as
requiredTransfer plus the safety buffer max(mintValue · 0.1, the fixed
floor 0.02 TON) — converting to integer nano units commutes with the
max — and the balance warning is recorded exactly when the observed nano
balance is below that threshold. -/
theorem balanceWarning_iff_threshold (cfg : Config) (ws : WalletStatus)
    (rt tenth floorNano : Int) (r : MinterReadiness)
    (h1 : toNano cfg.collectionMintValueTon = .ok rt)
    (h2 : toNano (cfg.collectionMintValueTon * (1 / 10)) = .ok tenth)
    (h3 : toNano (1 / 50 : ℚ) = .ok floorNano)
    (hr : ensureMinterWalletReady cfg ws = .ok r) :
    PrecheckWarning.balanceLow ∈ r.warnings ↔
      ws.balanceNano < rt + max tenth floorNano := by
  have hsb := toNano_max _ _ _ _ h2 h3
  rw [ensureMinterWalletReady_eq cfg ws rt (max tenth floorNano) h1 hsb] at hr
  injection hr with hr
  subst hr
  by_cases hb : ws.balanceNano < rt + max tenth floorNano <;>
    by_cases hs : ws.state ≠ "active" ∧ ws.state ≠ "uninitialized" <;>
    simp [hb, hs]

/-- Concrete run of the C7 theorem at the sample configuration with the
nearly empty wallet: the warning is present and the threshold inequality
holds. -/
theorem balanceWarning_iff_threshold_witness :
    PrecheckWarning.balanceLow ∈
      (MinterReadiness.mk "EQFRIENDLY" "UQFRIENDLY" 5 "frozen"
        [PrecheckWarning.balanceLow, PrecheckWarning.unexpectedState "frozen"]).warnings ↔
      (5 : Int) < 9000000 + max 900000 20000000 :=
  balanceWarning_iff_threshold sampleConfig poorWallet 9000000 900000 20000000 _
    toNano_sample_value toNano_sample_tenth toNano_sample_floor ensure_poorWallet

/-! ## Claim C10 -/

/-- C10 (amended): for every non-null parsed payload whose itemIndex
field is not a number (or is NaN), the mint attempt rejects with the
missing-numeric-itemIndex error carrying the payload and both captured
streams — even though the process exited 0 and the payload was valid
JSON — and no outcome is produced. -/
theorem missingItemIndex_rejected (cfg : Config)
    (jsonParse : String → Option JsonVal) (ws : WalletStatus) (p : ProcRun)
    (now wa col nc : String) (tg : Int) (ready : MinterReadiness)
    (result : JsonVal) (fv : Option JsonVal)
    (h1 : ensureMinterWalletReady cfg ws = .ok ready)
    (h2 : normalizeHexColor col = .ok nc)
    (h3 : p.exitCode = some 0)
    (h4 : parseMintResult jsonParse p.stdout = .ok result)
    (h5 : jsGetField result "itemIndex" = .ok fv)
    (h6 : ∀ q : ℚ, fv ≠ some (JsonVal.num q)) :
    mintAttempt cfg jsonParse (.ok ws) p now wa tg col =
      .error (.missingItemIndex result p.stdout p.stderr) := by
  have hrun : runDeployScript jsonParse p = .ok (result, p.stdout, p.stderr) := by
    rw [runDeployScript, if_neg (by simp [h3]), h4]
  rcases fv with _ | v
  · simp only [mintAttempt, h1, h2, hrun, h5, exceptBind_ok]
  · cases v with
    | num q => exact absurd rfl (h6 q)
    | nullV => simp only [mintAttempt, h1, h2, hrun, h5, exceptBind_ok]
    | boolV b => simp only [mintAttempt, h1, h2, hrun, h5, exceptBind_ok]
    | nan => simp only [mintAttempt, h1, h2, hrun, h5, exceptBind_ok]
    | str s => simp only [mintAttempt, h1, h2, hrun, h5, exceptBind_ok]
    | arr es => simp only [mintAttempt, h1, h2, hrun, h5, exceptBind_ok]
    | obj fs => simp only [mintAttempt, h1, h2, hrun, h5, exceptBind_ok]

/-- Concrete run of the amended C10 theorem: the payload's itemIndex is
the string seven, and the attempt rejects with the
missing-numeric-itemIndex error carrying payload and captures. -/
theorem missingItemIndex_rejected_witness :
    mintAttempt sampleConfig jsonParseItemStr (Except.ok sampleWallet)
      ⟨some 0, none, "MINT_RESULT=\x7b\"itemIndex\":\"seven\"\x7d", ""⟩
      "2025-01-01T00:00:00.000Z" "EQWALLET" 7 "#123456"
      = Except.error (MintError.missingItemIndex
          (JsonVal.obj [("itemIndex", JsonVal.str "seven")])
          "MINT_RESULT=\x7b\"itemIndex\":\"seven\"\x7d" "") :=
  missingItemIndex_rejected sampleConfig jsonParseItemStr sampleWallet
    ⟨some 0, none, "MINT_RESULT=\x7b\"itemIndex\":\"seven\"\x7d", ""⟩
    "2025-01-01T00:00:00.000Z" "EQWALLET" "#123456" "#123456" 7 _
    (JsonVal.obj [("itemIndex", JsonVal.str "seven")]) (some (JsonVal.str "seven"))
    ensure_sampleWallet rfl rfl rfl rfl (fun q hq => by simp at hq)

/-- C10 counterexample: with exit code 0 and the valid JSON payload
null — a parsed payload whose itemIndex field is certainly not a
number — the attempt rejects with the JS TypeError of reading itemIndex
of null, not with the missing-numeric-itemIndex error the claim names,
and that error carries no payload or captured output. -/
theorem nullPayload_counterexample :
    mintAttempt sampleConfig jsonParseNullOnly (Except.ok sampleWallet)
      ⟨some 0, none, "MINT_RESULT=null", ""⟩ "2025-01-01T00:00:00.000Z" "EQWALLET" 7 "#123456"
      = Except.error (MintError.nullPropertyAccess "itemIndex") ∧
    isMissingItemIndexError (mintAttempt sampleConfig jsonParseNullOnly
      (Except.ok sampleWallet) ⟨some 0, none, "MINT_RESULT=null", ""⟩
      "2025-01-01T00:00:00.000Z" "EQWALLET" 7 "#123456") = false := by
  have hrun : runDeployScript jsonParseNullOnly ⟨some 0, none, "MINT_RESULT=null", ""⟩
      = .ok (JsonVal.nullV, "MINT_RESULT=null", "") := rfl
  have h : mintAttempt sampleConfig jsonParseNullOnly (Except.ok sampleWallet)
      ⟨some 0, none, "MINT_RESULT=null", ""⟩ "2025-01-01T00:00:00.000Z" "EQWALLET" 7 "#123456"
      = Except.error (MintError.nullPropertyAccess "itemIndex") := by
    simp [mintAttempt, ensure_sampleWallet, hrun, jsGetField,
      (show normalizeHexColor "#123456" = .ok "#123456" from rfl),
      exceptBind_ok, exceptBind_error]
  exact ⟨h, by rw [h]; rfl⟩


/-! ## Urlencoding round-trip lemmas -/

theorem char_toNat_lt (c : Char) : c.toNat < 1114112 := by
  rcases c.valid with h | ⟨h1, h2⟩
  · exact lt_trans h (by norm_num)
  · exact h2

theorem utf8Bytes_lt (c : Char) : ∀ b ∈ utf8Bytes c, b < 256 := by
  intro b hb
  have hval := char_toNat_lt c
  simp only [utf8Bytes] at hb
  split_ifs at hb with h1 h2 h3 <;> simp at hb <;> omega

theorem hexDigitChar_toNat (d : Nat) (h : d < 16) :
    (hexDigitChar d).toNat = if d < 10 then 48 + d else 55 + d := by
  unfold hexDigitChar
  split_ifs with h1
  · exact toNat_ofNat_lt _ (by omega)
  · exact toNat_ofNat_lt _ (by omega)

theorem hexDigitVal_hexDigitChar (d : Nat) (h : d < 16) :
    hexDigitVal (hexDigitChar d) = some d := by
  have ht := hexDigitChar_toNat d h
  unfold hexDigitVal
  rw [ht]
  by_cases hd : d < 10
  · rw [if_pos hd, if_pos (by omega)]
    congr 1
    omega
  · rw [if_neg hd, if_neg (by omega), if_pos (by omega)]
    congr 1
    omega

theorem urlencodeChar_no_sep (c : Char) :
    ∀ x ∈ urlencodeChar c, x.toNat ≠ 38 ∧ x.toNat ≠ 61 ∧ x.toNat < 128 := by
  intro x hx
  unfold urlencodeChar at hx
  split_ifs at hx with h1 h2
  · simp at hx
    subst hx
    refine ⟨by decide, by decide, by decide⟩
  · simp at hx
    subst hx
    simp only [urlencodedSafeChar, Bool.or_eq_true, decide_eq_true_eq] at h2
    omega
  · rw [List.mem_flatMap] at hx
    obtain ⟨b, hb, hxb⟩ := hx
    have hblt := utf8Bytes_lt c b hb
    unfold percentEncodeByte at hxb
    have hdiv := hexDigitChar_toNat (b / 16) (by omega)
    have hmod := hexDigitChar_toNat (b % 16) (by omega)
    simp only [List.mem_cons, List.not_mem_nil, or_false] at hxb
    rcases hxb with rfl | rfl | rfl
    · refine ⟨by decide, by decide, by decide⟩
    · split_ifs at hdiv <;> omega
    · split_ifs at hmod <;> omega

theorem urlencodeList_no_sep (l : List Char) :
    ∀ x ∈ urlencodeList l, x.toNat ≠ 38 ∧ x.toNat ≠ 61 ∧ x.toNat < 128 := by
  intro x hx
  rw [urlencodeList, List.mem_flatMap] at hx
  obtain ⟨c, _, hxc⟩ := hx
  exact urlencodeChar_no_sep c x hxc

theorem percentDecode_urlencode (l : List Char) (h : ∀ c ∈ l, c.toNat < 128) :
    percentDecodeList (urlencodeList l) = l := by
  induction l with
  | nil => rfl
  | cons c t ih =>
    have hc : c.toNat < 128 := h c (List.mem_cons_self c t)
    have ht : ∀ x ∈ t, x.toNat < 128 := fun x hx => h x (List.mem_cons_of_mem _ hx)
    have henc : urlencodeList (c :: t) = urlencodeChar c ++ urlencodeList t := by
      simp [urlencodeList]
    rw [henc]
    unfold urlencodeChar
    split_ifs with h1 h2
    · subst h1
      simp only [List.singleton_append]
      simp [percentDecodeList, ih ht]
    · have hne : c ≠ '+' ∧ c ≠ '%' := by
        simp only [urlencodedSafeChar, Bool.or_eq_true, decide_eq_true_eq] at h2
        constructor <;> intro hcc <;> subst hcc <;> simp at h2
      simp only [List.singleton_append]
      simp [percentDecodeList, hne.1, hne.2, ih ht]
    · have hb : utf8Bytes c = [c.toNat] := by
        unfold utf8Bytes
        rw [if_pos hc]
      rw [hb]
      simp only [List.flatMap_cons, List.flatMap_nil, List.append_nil, percentEncodeByte,
        List.cons_append, List.nil_append]
      simp [percentDecodeList, hexDigitVal_hexDigitChar (c.toNat / 16) (by omega),
        hexDigitVal_hexDigitChar (c.toNat % 16) (by omega), Nat.div_add_mod,
        Char.ofNat_toNat, ih ht]

theorem splitOnChar_cons (sep c : Char) (cs : List Char) :
    splitOnChar sep (c :: cs) =
      match splitOnChar sep cs with
      | [] => [[]]
      | g :: gs => if c = sep then [] :: g :: gs else (c :: g) :: gs := rfl

theorem splitOnChar_ne_nil (sep : Char) (l : List Char) : splitOnChar sep l ≠ [] := by
  cases l with
  | nil => simp [splitOnChar]
  | cons c cs =>
    rw [splitOnChar_cons]
    cases hsplit : splitOnChar sep cs with
    | nil => simp
    | cons g gs => split_ifs <;> simp

theorem splitOnChar_of_not_mem (sep : Char) (l : List Char) (h : sep ∉ l) :
    splitOnChar sep l = [l] := by
  induction l with
  | nil => rfl
  | cons c cs ih =>
    have hcs : sep ∉ cs := fun hx => h (List.mem_cons_of_mem _ hx)
    have hc : ¬ c = sep := fun hx => h (by rw [hx]; exact List.mem_cons_self _ _)
    rw [splitOnChar_cons, ih hcs]
    simp [hc]

theorem splitOnChar_append_sep (sep : Char) (l₁ l₂ : List Char) (h : sep ∉ l₁) :
    splitOnChar sep (l₁ ++ sep :: l₂) = l₁ :: splitOnChar sep l₂ := by
  induction l₁ with
  | nil =>
    show splitOnChar sep (sep :: l₂) = [] :: splitOnChar sep l₂
    rw [splitOnChar_cons]
    cases hsplit : splitOnChar sep l₂ with
    | nil => exact absurd hsplit (splitOnChar_ne_nil sep l₂)
    | cons g gs => simp
  | cons c cs ih =>
    have hcs : sep ∉ cs := fun hx => h (List.mem_cons_of_mem _ hx)
    have hc : ¬ c = sep := fun hx => h (by rw [hx]; exact List.mem_cons_self _ _)
    show splitOnChar sep (c :: (cs ++ sep :: l₂)) = (c :: cs) :: splitOnChar sep l₂
    rw [splitOnChar_cons, ih hcs]
    simp [hc]

theorem splitFirstEq_append (k v : List Char) (h : ∀ c ∈ k, ¬ c = '=') :
    splitFirstEq (k ++ '=' :: v) = (k, v) := by
  induction k with
  | nil => simp [splitFirstEq]
  | cons c cs ih =>
    have hr := ih (fun x hx => h x (List.mem_cons_of_mem _ hx))
    simp only [List.cons_append, splitFirstEq, h c (List.mem_cons_self c cs), if_false]
    rw [show cs.append ('=' :: v) = cs ++ '=' :: v from rfl, hr]


open TonColours

theorem ascii_chars_of (s : String) (h : isAsciiString s = true) :
    ∀ c ∈ s.toList, c.toNat < 128 := by
  intro c hc
  exact of_decide_eq_true (List.all_eq_true.mp h c hc)

theorem piece_no_amp (k v : String) :
    '&' ∉ (urlencodeList k.toList ++ '=' :: urlencodeList v.toList) := by
  intro hmem
  rcases List.mem_append.mp hmem with hk | hv
  · exact absurd rfl ((urlencodeList_no_sep _ _ hk).1)
  · rcases List.mem_cons.mp hv with he | hv
    · exact absurd he (by decide)
    · exact absurd rfl ((urlencodeList_no_sep _ _ hv).1)

theorem piece_key_no_eq (k : String) :
    ∀ c ∈ urlencodeList k.toList, ¬ c = '=' := by
  intro c hc he
  subst he
  exact absurd rfl ((urlencodeList_no_sep _ _ hc).2.1)

theorem parseQuery_roundtrip (params : List (String × String))
    (h : ∀ p ∈ params, isAsciiString p.1 = true ∧ isAsciiString p.2 = true) :
    parseQueryString (serializeQuery params) = params := by
  induction params with
  | nil => rfl
  | cons p rest ih =>
    obtain ⟨hp1, hp2⟩ := h p (List.mem_cons_self p rest)
    have hkd : percentDecodeList (urlencodeList p.1.toList) = p.1.toList :=
      percentDecode_urlencode _ (ascii_chars_of _ hp1)
    have hvd : percentDecodeList (urlencodeList p.2.toList) = p.2.toList :=
      percentDecode_urlencode _ (ascii_chars_of _ hp2)
    have hsplit := splitFirstEq_append (urlencodeList p.1.toList)
      (urlencodeList p.2.toList) (piece_key_no_eq p.1)
    cases rest with
    | nil =>
      show parseQueryString (String.mk (serializeQueryChars [p])) = [p]
      simp only [serializeQueryChars, parseQueryString]
      rw [show (String.mk (urlencodeList p.1.toList ++ '=' :: urlencodeList p.2.toList)).toList
          = urlencodeList p.1.toList ++ '=' :: urlencodeList p.2.toList from rfl]
      rw [splitOnChar_of_not_mem _ _ (piece_no_amp p.1 p.2)]
      simp only [List.filter_cons, List.filter_nil]
      rw [if_pos (by simp : (decide ¬(urlencodeList p.1.toList ++ '=' :: urlencodeList p.2.toList) = []) = true)]
      simp only [List.map_cons, List.map_nil, hsplit, hkd, hvd]
      rfl
    | cons q rs =>
      have ihx := ih (fun x hx => h x (List.mem_cons_of_mem _ hx))
      simp only [parseQueryString, serializeQuery] at ihx
      show parseQueryString (String.mk (serializeQueryChars (p :: q :: rs))) = p :: q :: rs
      simp only [serializeQueryChars, parseQueryString]
      rw [show (String.mk ((urlencodeList p.1.toList ++ '=' :: urlencodeList p.2.toList)
          ++ '&' :: serializeQueryChars (q :: rs))).toList
          = (urlencodeList p.1.toList ++ '=' :: urlencodeList p.2.toList)
            ++ '&' :: serializeQueryChars (q :: rs) from rfl]
      rw [splitOnChar_append_sep _ _ _ (piece_no_amp p.1 p.2)]
      simp only [List.filter_cons]
      rw [if_pos (by simp : (decide ¬(urlencodeList p.1.toList ++ '=' :: urlencodeList p.2.toList) = []) = true)]
      simp only [List.map_cons, hsplit, hkd, hvd]
      rw [show (String.mk (serializeQueryChars (q :: rs))).toList
        = serializeQueryChars (q :: rs) from rfl] at ihx
      rw [ihx]
      rfl

/-! ## ASCII facts for the query values -/

theorem digitChar_ascii (m : Nat) (hm : m < 16) : (Nat.digitChar m).toNat < 128 := by
  interval_cases m <;> decide

theorem toDigitsCore_ascii (fuel : Nat) : ∀ (n : Nat) (ds : List Char),
    (∀ c ∈ ds, c.toNat < 128) → ∀ c ∈ Nat.toDigitsCore 10 fuel n ds, c.toNat < 128 := by
  induction fuel with
  | zero => exact fun n ds hds c hc => hds c hc
  | succ fuel ih =>
    intro n ds hds c hc
    simp only [Nat.toDigitsCore] at hc
    split_ifs at hc with h
    · rcases List.mem_cons.mp hc with rfl | hc
      · exact digitChar_ascii _ (by omega)
      · exact hds c hc
    · refine ih (n / 10) (Nat.digitChar (n % 10) :: ds) ?_ c hc
      intro x hx
      rcases List.mem_cons.mp hx with rfl | hx
      · exact digitChar_ascii _ (by omega)
      · exact hds x hx

theorem natRepr_ascii (n : Nat) : ∀ c ∈ (Nat.repr n).toList, c.toNat < 128 := by
  intro c hc
  rw [show (Nat.repr n).toList = Nat.toDigits 10 n from rfl] at hc
  rw [Nat.toDigits] at hc
  exact toDigitsCore_ascii (n + 1) n [] (by simp) c hc

theorem intToString_ascii (t : Int) : isAsciiString (toString t) = true := by
  rw [isAsciiString]
  refine List.all_eq_true.mpr ?_
  intro c hc
  refine decide_eq_true ?_
  cases t with
  | ofNat m =>
    rw [show (toString (Int.ofNat m)).toList = (Nat.repr m).toList from rfl] at hc
    exact natRepr_ascii m c hc
  | negSucc m =>
    rw [show (toString (Int.negSucc m)).toList = '-' :: (Nat.repr (m + 1)).toList from rfl] at hc
    rcases List.mem_cons.mp hc with rfl | hc
    · decide
    · exact natRepr_ascii (m + 1) c hc

theorem isHexDigitChar_ascii (c : Char) (h : isHexDigitChar c = true) : c.toNat < 128 := by
  simp only [isHexDigitChar, Bool.or_eq_true, decide_eq_true_eq] at h
  omega

theorem normalizedColor_value (col nc : String) (h : normalizeHexColor col = .ok nc) :
    isAsciiString (String.mk (removeFirstHash nc.toList)) = true := by
  obtain ⟨core, hlen, hall, rfl⟩ := normalizeHexColor_ok col nc h
  rw [show (String.mk ('#' :: core.map upperChar)).toList = '#' :: core.map upperChar from rfl]
  rw [show removeFirstHash ('#' :: core.map upperChar) = core.map upperChar by
    simp [removeFirstHash]]
  rw [isAsciiString]
  refine List.all_eq_true.mpr ?_
  intro c hc
  refine decide_eq_true ?_
  rw [show (String.mk (core.map upperChar)).toList = core.map upperChar from rfl] at hc
  obtain ⟨a, ha, rfl⟩ := List.mem_map.mp hc
  exact isHexDigitChar_ascii _ (upperChar_of_hex a (List.all_eq_true.mp hall a ha)).1


/-! ## Claim C8 -/

/-- C8: buildMetadataUri produces a URL of the form
baseUrl/metadata/itemIndex whose query carries color without the leading
hash, wallet only when a (truthy) walletAddress is provided, tg only
when telegramUserId is provided, and the percent-encoded mintedAt; and
parsing the query string of the built URI back out (the metadata
endpoint's urlencoded view) yields exactly the same logical values. -/
theorem buildMetadataUri_roundtrip (baseUrl : String) (itemIndex : ℚ)
    (color nc : String) (walletAddress : Option String) (telegramUserId : Option Int)
    (mintedAt : String)
    (hcolor : normalizeHexColor color = .ok nc)
    (hw : ∀ w, walletAddress = some w → ¬ w = "" ∧ isAsciiString w = true)
    (hm : ¬ mintedAt = "") (hma : isAsciiString mintedAt = true) :
    buildMetadataUri baseUrl itemIndex color walletAddress telegramUserId (some mintedAt) =
      .ok (baseUrl ++ "/metadata/" ++ jsNumberToString itemIndex ++ "?" ++
        serializeQuery (metadataQueryParams nc walletAddress telegramUserId (some mintedAt))) ∧
    parseQueryString (serializeQuery (metadataQueryParams nc walletAddress telegramUserId
        (some mintedAt)))
      = metadataQueryParams nc walletAddress telegramUserId (some mintedAt) ∧
    (parseQueryString (serializeQuery (metadataQueryParams nc walletAddress telegramUserId
        (some mintedAt)))).lookup "color" = some (String.mk (removeFirstHash nc.toList)) ∧
    (parseQueryString (serializeQuery (metadataQueryParams nc walletAddress telegramUserId
        (some mintedAt)))).lookup "wallet" = walletAddress ∧
    (parseQueryString (serializeQuery (metadataQueryParams nc walletAddress telegramUserId
        (some mintedAt)))).lookup "tg" = telegramUserId.map (fun t => toString t) ∧
    (parseQueryString (serializeQuery (metadataQueryParams nc walletAddress telegramUserId
        (some mintedAt)))).lookup "mintedAt" = some mintedAt := by
  have hbuild : buildMetadataUri baseUrl itemIndex color walletAddress telegramUserId
      (some mintedAt) =
      .ok (baseUrl ++ "/metadata/" ++ jsNumberToString itemIndex ++ "?" ++
        serializeQuery (metadataQueryParams nc walletAddress telegramUserId (some mintedAt))) := by
    simp [buildMetadataUri, hcolor, exceptBind_ok]
  rcases walletAddress with _ | w
  · rcases telegramUserId with _ | t
    · have hmq : metadataQueryParams nc none none (some mintedAt) =
          [("color", String.mk (removeFirstHash nc.toList)), ("mintedAt", mintedAt)] := by
        simp [metadataQueryParams, hm]
      have hparse : parseQueryString (serializeQuery (metadataQueryParams nc none none
          (some mintedAt))) = metadataQueryParams nc none none (some mintedAt) := by
        refine parseQuery_roundtrip _ ?_
        rw [hmq]
        intro p hp
        simp only [List.mem_cons, List.not_mem_nil, or_false] at hp
        rcases hp with rfl | rfl
        · exact ⟨(by decide : isAsciiString "color" = true),
            normalizedColor_value color nc hcolor⟩
        · exact ⟨(by decide : isAsciiString "mintedAt" = true), hma⟩
      refine ⟨hbuild, hparse, ?_, ?_, ?_, ?_⟩ <;> rw [hparse, hmq] <;> simp [List.lookup]
    · have hmq : metadataQueryParams nc none (some t) (some mintedAt) =
          [("color", String.mk (removeFirstHash nc.toList)), ("tg", toString t),
            ("mintedAt", mintedAt)] := by
        simp [metadataQueryParams, hm]
      have hparse : parseQueryString (serializeQuery (metadataQueryParams nc none (some t)
          (some mintedAt))) = metadataQueryParams nc none (some t) (some mintedAt) := by
        refine parseQuery_roundtrip _ ?_
        rw [hmq]
        intro p hp
        simp only [List.mem_cons, List.not_mem_nil, or_false] at hp
        rcases hp with rfl | rfl | rfl
        · exact ⟨(by decide : isAsciiString "color" = true),
            normalizedColor_value color nc hcolor⟩
        · exact ⟨(by decide : isAsciiString "tg" = true), intToString_ascii t⟩
        · exact ⟨(by decide : isAsciiString "mintedAt" = true), hma⟩
      refine ⟨hbuild, hparse, ?_, ?_, ?_, ?_⟩ <;> rw [hparse, hmq] <;> simp [List.lookup]
  · obtain ⟨hne, hasc⟩ := hw w rfl
    rcases telegramUserId with _ | t
    · have hmq : metadataQueryParams nc (some w) none (some mintedAt) =
          [("color", String.mk (removeFirstHash nc.toList)), ("wallet", w),
            ("mintedAt", mintedAt)] := by
        simp [metadataQueryParams, hne, hm]
      have hparse : parseQueryString (serializeQuery (metadataQueryParams nc (some w) none
          (some mintedAt))) = metadataQueryParams nc (some w) none (some mintedAt) := by
        refine parseQuery_roundtrip _ ?_
        rw [hmq]
        intro p hp
        simp only [List.mem_cons, List.not_mem_nil, or_false] at hp
        rcases hp with rfl | rfl | rfl
        · exact ⟨(by decide : isAsciiString "color" = true),
            normalizedColor_value color nc hcolor⟩
        · exact ⟨(by decide : isAsciiString "wallet" = true), hasc⟩
        · exact ⟨(by decide : isAsciiString "mintedAt" = true), hma⟩
      refine ⟨hbuild, hparse, ?_, ?_, ?_, ?_⟩ <;> rw [hparse, hmq] <;> simp [List.lookup]
    · have hmq : metadataQueryParams nc (some w) (some t) (some mintedAt) =
          [("color", String.mk (removeFirstHash nc.toList)), ("wallet", w),
            ("tg", toString t), ("mintedAt", mintedAt)] := by
        simp [metadataQueryParams, hne, hm]
      have hparse : parseQueryString (serializeQuery (metadataQueryParams nc (some w) (some t)
          (some mintedAt))) = metadataQueryParams nc (some w) (some t) (some mintedAt) := by
        refine parseQuery_roundtrip _ ?_
        rw [hmq]
        intro p hp
        simp only [List.mem_cons, List.not_mem_nil, or_false] at hp
        rcases hp with rfl | rfl | rfl | rfl
        · exact ⟨(by decide : isAsciiString "color" = true),
            normalizedColor_value color nc hcolor⟩
        · exact ⟨(by decide : isAsciiString "wallet" = true), hasc⟩
        · exact ⟨(by decide : isAsciiString "tg" = true), intToString_ascii t⟩
        · exact ⟨(by decide : isAsciiString "mintedAt" = true), hma⟩
      refine ⟨hbuild, hparse, ?_, ?_, ?_, ?_⟩ <;> rw [hparse, hmq] <;> simp [List.lookup]

/-- Concrete run of the C8 theorem at the spec's round-trip inputs:
itemIndex 3, colour hash-123456, wallet EQ123, telegram id 99 and the
ISO timestamp; the parsed query equals the built parameter list. -/
theorem buildMetadataUri_roundtrip_witness :
    parseQueryString (serializeQuery (metadataQueryParams "#123456" (some "EQ123") (some 99)
        (some "2025-01-01T00:00:00.000Z")))
      = metadataQueryParams "#123456" (some "EQ123") (some 99)
          (some "2025-01-01T00:00:00.000Z") :=
  (buildMetadataUri_roundtrip "https://backend.example" 3 "#123456" "#123456"
    (some "EQ123") (some 99) "2025-01-01T00:00:00.000Z" rfl
    (fun w hw => by cases hw; exact ⟨by decide, by decide⟩)
    (by decide) (by decide)).2.1

/-! ## Claim C9 -/

/-- C9: the deploy invocation's argument vector is the blueprint runner
words, the network selector flag, the custom-endpoint flags — present
exactly when the configured endpoint differs from the known Toncenter
default of the configured network — then the tonconnect flag, the
deployNftItem subcommand and the collection address as final positional
argument; the mint-specific data travels in the spawned process
environment, all nine variables set from the configuration and request,
with automation forced on. -/
theorem deploy_invocation_shape (cmd : String) (cfg : Config) (wa col : String) (tg : Int)
    (hnet : cfg.tonNetwork = "mainnet" ∨ cfg.tonNetwork = "testnet") :
    (deploySpawnCall cmd cfg wa col tg).command = cmd ∧
    (deploySpawnCall cmd cfg wa col tg).args =
      ["blueprint", "run",
        if cfg.tonNetwork = "testnet" then "--testnet" else "--mainnet"]
        ++ customEndpointFlags cfg
        ++ ["--tonconnect", "deployNftItem", cfg.collectionAddress] ∧
    (customEndpointFlags cfg = [] ↔
      cfg.tonEndpoint =
        (if cfg.tonNetwork = "testnet"
          then "https://testnet.toncenter.com/api/v2/jsonRPC"
          else "https://toncenter.com/api/v2/jsonRPC")) ∧
    (deploySpawnCall cmd cfg wa col tg).env =
      [("TON_COLOURS_AUTOMATION", "true"),
       ("TON_COLOURS_COLLECTION_ADDRESS", cfg.collectionAddress),
       ("TON_COLOURS_ITEM_OWNER", wa),
       ("TON_COLOURS_ITEM_COLOR", col),
       ("TON_COLOURS_ITEM_TELEGRAM_ID", toString tg),
       ("TON_WALLET_MNEMONIC", joinWords cfg.mnemonicWords),
       ("TON_WALLET_VERSION", cfg.walletVersion),
       ("TON_NETWORK", cfg.tonNetwork),
       ("TON_ENDPOINT", cfg.tonEndpoint)] := by
  refine ⟨rfl, ?_, ?_, rfl⟩
  · simp [deploySpawnCall, buildScriptArgs]
  · unfold customEndpointFlags
    rcases hnet with h | h <;> rw [h] <;> simp [DEFAULT_TONCENTER_ENDPOINTS] <;>
      exact eq_comm

/-- Concrete run of the C9 theorem at the sample configuration, whose
endpoint is the testnet Toncenter default: no custom flags appear. -/
theorem deploy_invocation_shape_witness :
    (deploySpawnCall "npx" sampleConfig "EQWALLET" "#123456" 7).command = "npx" ∧
    (deploySpawnCall "npx" sampleConfig "EQWALLET" "#123456" 7).args =
      ["blueprint", "run",
        if sampleConfig.tonNetwork = "testnet" then "--testnet" else "--mainnet"]
        ++ customEndpointFlags sampleConfig
        ++ ["--tonconnect", "deployNftItem", sampleConfig.collectionAddress] ∧
    (customEndpointFlags sampleConfig = [] ↔
      sampleConfig.tonEndpoint =
        (if sampleConfig.tonNetwork = "testnet"
          then "https://testnet.toncenter.com/api/v2/jsonRPC"
          else "https://toncenter.com/api/v2/jsonRPC")) ∧
    (deploySpawnCall "npx" sampleConfig "EQWALLET" "#123456" 7).env =
      [("TON_COLOURS_AUTOMATION", "true"),
       ("TON_COLOURS_COLLECTION_ADDRESS", sampleConfig.collectionAddress),
       ("TON_COLOURS_ITEM_OWNER", "EQWALLET"),
       ("TON_COLOURS_ITEM_COLOR", "#123456"),
       ("TON_COLOURS_ITEM_TELEGRAM_ID", toString (7 : Int)),
       ("TON_WALLET_MNEMONIC", joinWords sampleConfig.mnemonicWords),
       ("TON_WALLET_VERSION", sampleConfig.walletVersion),
       ("TON_NETWORK", sampleConfig.tonNetwork),
       ("TON_ENDPOINT", sampleConfig.tonEndpoint)] :=
  deploy_invocation_shape "npx" sampleConfig "EQWALLET" "#123456" 7 (Or.inr rfl)

/-- Concrete run of the C2 theorem: the first submitted task rejects,
yet the schedule is identical to the one where it succeeds — the second
task still runs in order. -/
theorem mintQueue_isolates_failures_witness :
    (runQueue (MintQueueState.mk 0)
        [(0, MintTask.mk 2 (Except.error "boom")), (0, MintTask.mk 3 (Except.ok 7))]).map
        (fun r => (r.spawn, r.settle)) =
      (runQueue (MintQueueState.mk 0)
        [(0, MintTask.mk 2 (Except.ok 0)), (0, MintTask.mk 3 (Except.ok (7 : Nat)))]).map
        (fun r => (r.spawn, r.settle)) :=
  (mintQueue_isolates_failures (MintQueueState.mk 0)
    [(0, MintTask.mk 2 (Except.error "boom")), (0, MintTask.mk 3 (Except.ok 7))]
    [(0, MintTask.mk 2 (Except.ok 0)), (0, MintTask.mk 3 (Except.ok 7))] rfl).2.2

end TonColours
